import Mathlib

set_option maxRecDepth 8000

/-!
Shallow embedding of the binary acquisition and lifecycle manager of the
flatbuffers-language-server VSCode extension (src/extension.ts), together
with proofs about its documented behaviour.

Modelling conventions:
* The ambient world (settings, persisted global state, the storage-root
  filesystem, the outcome of the release query, the outcomes of the archive
  stream and of extraction, and the user's answers to the prompts) is an
  explicit state record `ExtState` that the translated functions read and
  update.
* Filesystem paths below the storage root are segment lists
  (`path.join(storagePath, a, b)` becomes `[a, b]`); `joinPath` renders the
  string form that the TypeScript functions return to their caller.
* Observable effects (network requests, file writes, user-visible messages,
  prompts, console logs) are recorded in an event trace `List Ev`, in
  program order.
* `window.withProgress` runs its body inline (it only decorates the body
  with a progress UI), and the non-awaited `cleanupOldVersions` call and the
  non-awaited background check still execute; the background check is
  recorded as a `bgCheckStarted` event at the call site and its body is the
  separate function `checkForUpdatesInBackground`.
* Exact display texts of purely informational toasts are abbreviated where
  the original interpolates URIs; no claim depends on them.
-/

/-- Constant `BINARY_NAME` from extension.ts. -/
def BINARY_NAME : String := "flatbuffers-language-server"

/-- Constant `VERSION_PREFIX` from extension.ts (directory-name marker for
installed versions). -/
def versionPrefixVal : String := "flatbuffers-language-server-"

/-- A release asset as used by the code (`asset.name`,
`asset.browser_download_url`). -/
structure Asset where
  name : String
  browser_download_url : String
deriving DecidableEq, Repr

/-- The release object returned by `getLatestRelease` (`tag_name`, `assets`). -/
structure Release where
  tag_name : String
  assets : List Asset
deriving DecidableEq, Repr

/-- Observable effects, recorded in program order. -/
inductive Ev where
  /-- The HTTPS GET for the release metadata (`getLatestRelease`). -/
  | releaseRequest : Ev
  /-- The streaming GET for a release asset. -/
  | assetRequest (url : String) : Ev
  /-- A file created or written below the storage root (`createWriteStream`). -/
  | fileWrite (p : List String) : Ev
  /-- Extraction of an archive into a version directory. -/
  | extractTo (archive : List String) (dir : String) : Ev
  /-- `fs.remove` of a path below the storage root. -/
  | removePath (p : List String) : Ev
  /-- `fs.chmod 0o755` of a path below the storage root. -/
  | chmodX (p : List String) : Ev
  /-- `window.showErrorMessage`. -/
  | errMsg (m : String) : Ev
  /-- `window.showInformationMessage` used as a plain notice. -/
  | infoMsg (m : String) : Ev
  /-- The update prompt of `checkForUpdatesInBackground`. -/
  | updatePrompt : Ev
  /-- The initial download prompt of `getLanguageServerPath`. -/
  | downloadPrompt : Ev
  /-- The non-blocking background update check is kicked off. -/
  | bgCheckStarted : Ev
  /-- A console log (`console.log` / `console.error`). -/
  | logged (m : String) : Ev
deriving DecidableEq, Repr

/-- The user's answer to the initial download prompt of
`getLanguageServerPath`. -/
inductive DownloadChoice where
  | downloadAndEnable : DownloadChoice
  | downloadOnce : DownloadChoice
  | cancel : DownloadChoice
deriving DecidableEq, Repr

/-- The user's answer to the update prompt of `checkForUpdatesInBackground`. -/
inductive UpdateChoice where
  | download : UpdateChoice
  | downloadAndEnable : UpdateChoice
  | skipThis : UpdateChoice
  | dismiss : UpdateChoice
deriving DecidableEq, Repr

deriving instance DecidableEq for Except

/-- The ambient world state read and written by the translated functions. -/
structure ExtState where
  /-- `process.platform`. -/
  platform : String
  /-- `process.arch`. -/
  arch : String
  /-- Paths (segment lists relative to the storage root) present on disk. -/
  files : List (List String)
  /-- Outcome of the next `getLatestRelease` call. -/
  fetchResult : Except String Release
  /-- Whether the archive stream (`pipeline`) completes without error. -/
  downloadOk : Bool
  /-- Whether extraction (`extract` / `tar.x`) succeeds. -/
  extractOk : Bool
  /-- Storage-root entries whose `fs.remove` throws (e.g. a held file lock). -/
  removeFails : List String
  /-- Persisted `latestKnownVersion` global-state key. -/
  latestKnownVersion : Option String
  /-- Persisted `latestSkippedVersion` global-state key. -/
  latestSkippedVersion : Option String
  /-- Setting `flatbuffers.languageServer.path` (`null` when unset). -/
  configPath : Option String
  /-- Setting `flatbuffers.languageServer.autoDownload` (unset when `none`). -/
  configAutoDownload : Option Bool
  /-- Result of `which(BINARY_NAME)`: the resolved path, or `none` when the
  lookup throws. -/
  whichResult : Option String
  /-- Canned answer to the initial download prompt. -/
  downloadChoice : DownloadChoice
  /-- Canned answer to the update prompt. -/
  updateChoice : UpdateChoice
deriving DecidableEq, Repr

/-- Render a segment path as the string the TypeScript code would return
(`path.join` below the storage root). -/
def joinPath (p : List String) : String := String.intercalate "/" p

/-- The version directory name for a version tag:
`` `${VERSION_PREFIX}${version}` ``. -/
def versionDirFor (v : String) : String := versionPrefixVal ++ v

/-- `BINARY_NAME + (process.platform === 'win32' ? '.exe' : '')`. -/
def binaryNameFor (platform : String) : String :=
  BINARY_NAME ++ (if platform = "win32" then ".exe" else "")

/-- `path.join(versionDir, binaryName)` relative to the storage root. -/
def binaryPathFor (platform v : String) : List String :=
  [versionDirFor v, binaryNameFor platform]

/-- The asset-name template
`` `${BINARY_NAME}-${version}-${arch}-${os}.${extension}` ``. -/
def assetNameStr (version archName osName ext : String) : String :=
  BINARY_NAME ++ "-" ++ version ++ "-" ++ archName ++ "-" ++ osName ++ "." ++ ext

/-- `getAssetName` from extension.ts, with `process.platform` and
`process.arch` as explicit arguments. -/
def getAssetName (platform arch version : String) : Option String :=
  let osName : Option String :=
    if platform = "darwin" then some "apple-darwin"
    else if platform = "linux" then some "unknown-linux-gnu"
    else if platform = "win32" then some "pc-windows-msvc"
    else none
  match osName with
  | none => none
  | some os =>
    let archName : Option String :=
      if arch = "x64" then some "x86_64"
      else if arch = "arm64" then some "aarch64"
      else none
    match archName with
    | none => none
    | some ar =>
      let ext := if platform = "win32" then "zip" else "tar.gz"
      some (assetNameStr version ar os ext)

/-- The storage-root entry a path belongs to (its first segment; `readdir`
of the storage root sees entries, not nested paths). -/
def entryName (p : List String) : String := p.headD ""

/-- Effect of `fs.remove(path.join(storagePath, e))` on the storage-root
contents: every path inside entry `e` disappears. -/
def removeEntryFiles (e : String) (files : List (List String)) : List (List String) :=
  files.filter (fun f => decide (entryName f ≠ e))

/-- `fs.readdir(storagePath)`: the distinct storage-root entries, in
first-appearance order. -/
def readdirStorage (files : List (List String)) : List String :=
  (files.map entryName).dedup

/-- `String.prototype.startsWith`: character-list prefix test (structural,
so that concrete runs evaluate). -/
def strStartsWith (s pre : String) : Bool := pre.data.isPrefixOf s.data

/-- The `for` loop of `cleanupOldVersions`. A throwing `fs.remove` is caught
by the `try`/`catch` that wraps the whole loop, so it ends the loop (the
remaining entries are not visited) and is logged. -/
def cleanupLoop (vd : String) (rf : List String) :
    List (List String) → List String → List (List String) × List Ev
  | files, [] => (files, [])
  | files, e :: rest =>
    if strStartsWith e versionPrefixVal ∧ e ≠ vd then
      if e ∈ rf then
        (files, [Ev.logged "Error cleaning up old versions"])
      else
        let r := cleanupLoop vd rf (removeEntryFiles e files) rest
        (r.1, Ev.removePath [e] :: r.2)
    else cleanupLoop vd rf files rest

/-- `cleanupOldVersions` from extension.ts: removes every storage-root entry
that starts with `VERSION_PREFIX` other than the current version directory;
any error is caught and logged. -/
def cleanupOldVersions (vd : String) (s : ExtState) : ExtState × List Ev :=
  let r := cleanupLoop vd s.removeFails s.files (readdirStorage s.files)
  ({ s with files := r.1 }, r.2)

/-- The `chmod 0o755` step, skipped on Windows. -/
def chmodEvs (platform : String) (p : List String) : List Ev :=
  if platform = "win32" then [] else [Ev.chmodX p]

/-- The error-message head of `downloadLanguageServer`'s catch-all:
`` `Failed to ${isUpdate ? "update" : "download"} language server: ` ``. -/
def failMsgHead (isUpdate : Bool) : String :=
  "Failed to " ++ (if isUpdate then "update" else "download") ++ " language server: "

/-- The success notice shown after a download (`isUpdate` selects between the
reload prompt and the downloaded-to notice; display text abbreviated). -/
def successMsgEv (isUpdate : Bool) (v : String) : Ev :=
  if isUpdate then
    Ev.infoMsg ("Updated FlatBuffers Language Server. Reload to use the latest version (v" ++ v ++ ").")
  else
    Ev.infoMsg ("Successfully downloaded FlatBuffers Language Server v" ++ v ++ " to the extension storage directory.")

/-- The part of `downloadLanguageServer` after the already-installed check:
asset selection, download, extraction, cleanup. The temporary archive path
is `path.join(storagePath, assetName)`; `createWriteStream` creates it even
when the stream then fails mid-transfer, and no handler removes it on the
failure paths. -/
def dlInstall (s : ExtState) (isUpdate : Bool) (v : String) (assets : List Asset) :
    Option String × ExtState × List Ev :=
  match getAssetName s.platform s.arch v with
  | none =>
    (none, s, [Ev.errMsg ("Unsupported platform: " ++ s.platform ++ "-" ++ s.arch)])
  | some assetName =>
    match assets.find? (fun a => a.name == assetName) with
    | none =>
      (none, s, [Ev.errMsg (failMsgHead isUpdate ++ "Could not find a release asset for your platform: " ++ assetName)])
    | some asset =>
      let temp : List String := [assetName]
      let s1 := { s with files := temp :: s.files }
      if s.downloadOk = false then
        (none, s1, [Ev.assetRequest asset.browser_download_url, Ev.fileWrite temp,
          Ev.errMsg (failMsgHead isUpdate ++ "stream interrupted")])
      else if s.extractOk = false then
        (none, s1, [Ev.assetRequest asset.browser_download_url, Ev.fileWrite temp,
          Ev.extractTo temp (versionDirFor v),
          Ev.errMsg (failMsgHead isUpdate ++ "extraction failed")])
      else
        let bp := binaryPathFor s.platform v
        let s2 := { s1 with files := bp :: s1.files }
        let s3 := { s2 with files := s2.files.filter (fun f => decide (f ≠ temp)) }
        let s4 := { s3 with latestKnownVersion := some v }
        let r := cleanupOldVersions (versionDirFor v) s4
        (some (joinPath bp), r.1,
          [Ev.assetRequest asset.browser_download_url, Ev.fileWrite temp,
            Ev.extractTo temp (versionDirFor v), Ev.removePath temp]
          ++ chmodEvs s.platform bp ++ [successMsgEv isUpdate v] ++ r.2)

/-- The body of `downloadLanguageServer` once the release is known: the
already-installed fast path, else `dlInstall`. -/
def dlWithRelease (s : ExtState) (isUpdate : Bool) (rel : Release) :
    Option String × ExtState × List Ev :=
  let v := rel.tag_name
  let bp := binaryPathFor s.platform v
  if bp ∈ s.files then
    let r := cleanupOldVersions (versionDirFor v) s
    (some (joinPath bp), r.1, chmodEvs s.platform bp ++ r.2)
  else dlInstall s isUpdate v rel.assets

/-- `downloadLanguageServer` from extension.ts. It always performs the
release-metadata request first; a failing request is caught by the
catch-all, which shows an error message and returns `null`. -/
def downloadLanguageServer (s : ExtState) (isUpdate : Bool) :
    Option String × ExtState × List Ev :=
  match s.fetchResult with
  | Except.error m =>
    (none, s, [Ev.releaseRequest, Ev.errMsg (failMsgHead isUpdate ++ m)])
  | Except.ok rel =>
    let r := dlWithRelease s isUpdate rel
    (r.1, r.2.1, Ev.releaseRequest :: r.2.2)

/-- `enableAutoUpdates` from extension.ts. -/
def enableAutoUpdates (s : ExtState) : ExtState × List Ev :=
  ({ s with configAutoDownload := some true },
    [Ev.infoMsg "FlatBuffers auto-update enabled."])

/-- `checkForUpdatesInBackground` from extension.ts. Its `try`/`catch`
catches the errors of its own flow (the release query) and only logs them;
`downloadLanguageServer` never throws (it resolves `null` on failure after
showing its own message), so its result is awaited and ignored. -/
def checkForUpdatesInBackground (s : ExtState) (cachedVersion : String)
    (shouldAutoDownload : Bool) : ExtState × List Ev :=
  match s.fetchResult with
  | Except.error m =>
    (s, [Ev.releaseRequest, Ev.logged ("Failed to check for updates in the background: " ++ m)])
  | Except.ok rel =>
    let latestVersion := rel.tag_name
    let skippedVersion := s.latestSkippedVersion.getD ""
    if latestVersion ≠ cachedVersion then
      if shouldAutoDownload then
        let r := downloadLanguageServer s true
        (r.2.1, Ev.releaseRequest :: r.2.2)
      else if latestVersion = skippedVersion then
        (s, [Ev.releaseRequest, Ev.logged ("Latest version was skipped (" ++ latestVersion ++ ").")])
      else
        match s.updateChoice with
        | UpdateChoice.downloadAndEnable =>
          let r1 := enableAutoUpdates s
          let r2 := downloadLanguageServer r1.1 true
          (r2.2.1, Ev.releaseRequest :: Ev.updatePrompt :: (r1.2 ++ r2.2.2))
        | UpdateChoice.download =>
          let r := downloadLanguageServer s true
          (r.2.1, Ev.releaseRequest :: Ev.updatePrompt :: r.2.2)
        | UpdateChoice.skipThis =>
          ({ s with latestSkippedVersion := some latestVersion },
            [Ev.releaseRequest, Ev.updatePrompt,
              Ev.logged ("Setting skipped version to " ++ latestVersion ++ ".")])
        | UpdateChoice.dismiss =>
          (s, [Ev.releaseRequest, Ev.updatePrompt])
    else
      (s, [Ev.releaseRequest, Ev.logged "Language server is up to date."])

/-- JavaScript truthiness of the configured path: `null` and the empty
string are falsy (`if (userDefinedPath)`). -/
def truthyStr : Option String → Option String
  | some p => if p = "" then none else some p
  | none => none

/-- No usable cached installation: either no persisted version, or the
recorded binary file is not on disk. -/
def cacheMiss (s : ExtState) : Prop :=
  ∀ cv, s.latestKnownVersion = some cv → binaryPathFor s.platform cv ∉ s.files

/-- `getLanguageServerPath` from extension.ts: user configuration, then the
system search path, then the cached installation (kicking off the
non-blocking background check), then auto-download or the initial download
prompt. A cancelled prompt returns `null` without any message from this
function. -/
def getLanguageServerPath (s : ExtState) : Option String × ExtState × List Ev :=
  match truthyStr s.configPath with
  | some p => (some p, s, [])
  | none =>
    match s.whichResult with
    | some p => (some p, s, [])
    | none =>
      let shouldAutoDownload := s.configAutoDownload.getD false
      let cached : Option (List String) :=
        match s.latestKnownVersion with
        | some cv =>
          let bp := binaryPathFor s.platform cv
          if bp ∈ s.files then some bp else none
        | none => none
      match cached with
      | some bp => (some (joinPath bp), s, [Ev.bgCheckStarted])
      | none =>
        if shouldAutoDownload then
          downloadLanguageServer s false
        else
          match s.downloadChoice with
          | DownloadChoice.downloadAndEnable =>
            let r1 := enableAutoUpdates s
            let r2 := downloadLanguageServer r1.1 false
            (r2.1, r2.2.1, Ev.downloadPrompt :: (r1.2 ++ r2.2.2))
          | DownloadChoice.downloadOnce =>
            let r := downloadLanguageServer s false
            (r.1, r.2.1, Ev.downloadPrompt :: r.2.2)
          | DownloadChoice.cancel =>
            (none, s, [Ev.downloadPrompt])

/-- `IGNORED_PATH_SEGMENTS` from extension.ts. -/
def IGNORED_PATH_SEGMENTS : List String :=
  [".git", ".svn", ".hg", ".bzr", "node_modules", "bower_components", ".idea",
    ".vscode", "venv", ".venv", "dist", "build", ".cache", "__pycache__",
    ".pytest_cache"]

/-- Split a character list at every occurrence of the separator, keeping
empty pieces, like the JavaScript `String.prototype.split` with a one-character
separator. The accumulator holds the current piece reversed. -/
def splitCharsAux (sep : Char) : List Char → List Char → List (List Char)
  | [], acc => [acc.reverse]
  | c :: cs, acc =>
    if c = sep then acc.reverse :: splitCharsAux sep cs []
    else splitCharsAux sep cs (c :: acc)

/-- `fsPath.split(path.sep)` (`path.sep` is a single character). -/
def splitPath (sep : Char) (p : String) : List String :=
  (splitCharsAux sep p.data []).map (fun l => String.mk l)

/-- `uri.fsPath.split(path.sep).reverse().some(part => IGNORED_PATH_SEGMENTS.has(part))`. -/
def isIgnoredPath (sep : Char) (fsPath : String) : Bool :=
  ((splitPath sep fsPath).reverse).any (fun part => IGNORED_PATH_SEGMENTS.contains part)

/-- `path.basename`: the part after the last separator, with trailing
separators ignored. -/
def basenameOf (sep : Char) (p : String) : String :=
  String.mk ((((p.data.reverse.dropWhile (fun c => c = sep)).takeWhile
    (fun c => c ≠ sep)).reverse))

/-- The suffix of a character list starting at its last dot, when one
exists. -/
def suffixFromLastDot : List Char → Option (List Char)
  | [] => none
  | c :: cs =>
    match suffixFromLastDot cs with
    | some r => some r
    | none => if c = '.' then some (c :: cs) else none

/-- `path.extname`: the extension of the basename, empty when the basename
has no dot, when its only dot is its leading character, or for the special
names `.` and `..`. -/
def extname (sep : Char) (p : String) : String :=
  let b := basenameOf sep p
  if b = "." ∨ b = ".." then ""
  else
    match b.data with
    | [] => ""
    | _ :: rest =>
      match suffixFromLastDot rest with
      | some r => String.mk r
      | none => ""

/-- `FileChangeType` of the editor API. -/
inductive FileChangeType where
  | Changed : FileChangeType
  | Created : FileChangeType
  | Deleted : FileChangeType
deriving DecidableEq, Repr

/-- The filesystem facts `onFileEvent` consults for non-delete events:
whether the path is a directory (`fs.stat`, `false` when `stat` throws) and
the `.fbs` files found below it (`workspace.findFiles`). -/
structure WatchEnv where
  isDirectory : Bool
  dirFiles : List String
deriving DecidableEq, Repr

/-- `onFileEvent` from extension.ts, returning the change list sent with the
`workspace/didChangeWatchedFiles` notification, or `none` when no
notification is sent. -/
def onFileEvent (sep : Char) (env : WatchEnv) (uri : String)
    (ty : FileChangeType) : Option (List (String × FileChangeType)) :=
  if isIgnoredPath sep uri then none
  else if ty = FileChangeType.Deleted then
    if extname sep uri = "" then some [(uri, ty)] else none
  else if env.isDirectory then
    if env.dirFiles ≠ [] then some (env.dirFiles.map (fun u => (u, ty))) else none
  else none

/-- Event classifiers used in the theorems. -/
def isErrMsgEv : Ev → Bool
  | Ev.errMsg _ => true
  | _ => false

/-- Network events: the release-metadata request and the asset download. -/
def isNetworkEv : Ev → Bool
  | Ev.releaseRequest => true
  | Ev.assetRequest _ => true
  | _ => false

/-- File-content-producing events: writes and extractions. -/
def isWriteEv : Ev → Bool
  | Ev.fileWrite _ => true
  | Ev.extractTo _ _ => true
  | _ => false

/-- Permission-bit events. -/
def isChmodEv : Ev → Bool
  | Ev.chmodX _ => true
  | _ => false

/-- The state after a successful stream + extraction, before the reaper:
the binary landed in the version directory, the temporary archive was
created and then removed, and the cached version key was updated. -/
def postInstall (s : ExtState) (v an : String) : ExtState :=
  { s with
    files := (binaryPathFor s.platform v :: [an] :: s.files).filter
      (fun f => decide (f ≠ [an])),
    latestKnownVersion := some v }

/-- The linux/x64 asset name of the example release used by the concrete
witnesses. -/
def linuxAssetV2 : String := assetNameStr "v2" "x86_64" "unknown-linux-gnu" "tar.gz"

/-- An example release carrying exactly the linux/x64 asset. -/
def relV2 : Release := ⟨"v2", [⟨linuxAssetV2, "https://example.com/fbs.tar.gz"⟩]⟩

/-- A baseline linux/x64 world used by the concrete witnesses. -/
def baseSt : ExtState :=
  { platform := "linux", arch := "x64", files := [],
    fetchResult := Except.ok relV2, downloadOk := true, extractOk := true,
    removeFails := [], latestKnownVersion := none, latestSkippedVersion := none,
    configPath := none, configAutoDownload := none, whichResult := none,
    downloadChoice := DownloadChoice.cancel, updateChoice := UpdateChoice.dismiss }

/-- The POSIX path separator, used by the concrete witnesses. -/
def sepSlash : Char := '/' 

/-! ### Helper lemmas about the reaper loop -/

/-- Membership in the effect of removing one storage-root entry. -/
theorem mem_removeEntryFiles {e : String} {files : List (List String)} {f : List String} :
    f ∈ removeEntryFiles e files ↔ f ∈ files ∧ entryName f ≠ e := by
  simp [removeEntryFiles]

/-- Membership in the storage-root directory listing. -/
theorem mem_readdirStorage {files : List (List String)} {e : String} :
    e ∈ readdirStorage files ↔ ∃ f ∈ files, entryName f = e := by
  simp [readdirStorage, List.mem_dedup, List.mem_map]

/-- The reaper loop only ever removes files. -/
theorem cleanupLoop_subset (vd : String) (rf : List String) :
    ∀ (l : List String) (files : List (List String)),
      (cleanupLoop vd rf files l).1 ⊆ files := by
  intro l
  induction l with
  | nil => intro files x hx; simpa [cleanupLoop] using hx
  | cons e rest ih =>
    intro files x hx
    simp only [cleanupLoop] at hx
    split at hx
    · split at hx
      · exact hx
      · simp only at hx
        exact (mem_removeEntryFiles.mp (ih (removeEntryFiles e files) hx)).1
    · exact ih files hx

/-- A file whose storage-root entry is the kept version directory survives
the reaper loop. -/
theorem cleanupLoop_keep (vd : String) (rf : List String) :
    ∀ (l : List String) (files : List (List String)) (f : List String),
      f ∈ files → entryName f = vd → f ∈ (cleanupLoop vd rf files l).1 := by
  intro l
  induction l with
  | nil => intro files f hf _; simpa [cleanupLoop] using hf
  | cons e rest ih =>
    intro files f hf hent
    simp only [cleanupLoop]
    split
    · rename_i hcond
      split
      · exact hf
      · simp only
        refine ih (removeEntryFiles e files) f ?_ hent
        rw [mem_removeEntryFiles]
        exact ⟨hf, by rw [hent]; exact fun h => hcond.2 h.symm⟩
    · exact ih files f hf hent

/-- Every event the reaper loop emits is a removal or a console log. -/
theorem cleanupLoop_evs (vd : String) (rf : List String) :
    ∀ (l : List String) (files : List (List String)) (e : Ev),
      e ∈ (cleanupLoop vd rf files l).2 →
        (∃ p, e = Ev.removePath p) ∨ ∃ m, e = Ev.logged m := by
  intro l
  induction l with
  | nil => intro files e he; simp [cleanupLoop] at he
  | cons en rest ih =>
    intro files e he
    simp only [cleanupLoop] at he
    split at he
    · split at he
      · simp only [List.mem_singleton] at he
        exact Or.inr ⟨_, he⟩
      · simp only [List.mem_cons] at he
        rcases he with he | he
        · exact Or.inl ⟨_, he⟩
        · exact ih (removeEntryFiles en files) e he
    · exact ih files e he

/-- Characterisation of the reaper loop when no removal fails: a file
survives exactly when its storage-root entry is not a stale
version-prefixed entry listed for processing. -/
theorem cleanupLoop_mem_noFail (vd : String) :
    ∀ (l : List String) (files : List (List String)) (f : List String),
      (f ∈ (cleanupLoop vd [] files l).1 ↔
        f ∈ files ∧ ¬(entryName f ∈ l ∧ strStartsWith (entryName f) versionPrefixVal = true ∧
          entryName f ≠ vd)) := by
  intro l
  induction l with
  | nil => intro files f; simp [cleanupLoop]
  | cons e rest ih =>
    intro files f
    simp only [cleanupLoop]
    rcases Decidable.em (strStartsWith e versionPrefixVal = true ∧ e ≠ vd) with hcond | hcond
    · rw [if_pos hcond, if_neg (List.not_mem_nil e)]
      simp only
      rw [ih (removeEntryFiles e files) f]
      rw [mem_removeEntryFiles]
      simp only [List.mem_cons]
      by_cases hfe : entryName f = e
      · rw [hfe]
        constructor
        · rintro ⟨⟨_, h⟩, _⟩
          exact absurd rfl h
        · rintro ⟨_, h⟩
          exact absurd ⟨Or.inl rfl, hcond.1, hcond.2⟩ h
      · constructor
        · rintro ⟨⟨hmem, _⟩, hnot⟩
          refine ⟨hmem, ?_⟩
          rintro ⟨hin | hin, hp⟩
          · exact hfe hin
          · exact hnot ⟨hin, hp⟩
        · rintro ⟨hmem, hnot⟩
          exact ⟨⟨hmem, hfe⟩, fun h => hnot ⟨Or.inr h.1, h.2⟩⟩
    · rw [if_neg hcond]
      rw [ih files f]
      simp only [List.mem_cons]
      by_cases hfe : entryName f = e
      · rw [hfe]
        constructor
        · rintro ⟨hmem, _⟩
          exact ⟨hmem, fun h => hcond h.2⟩
        · rintro ⟨hmem, _⟩
          exact ⟨hmem, fun h => hcond h.2⟩
      · constructor
        · rintro ⟨hmem, hnot⟩
          refine ⟨hmem, ?_⟩
          rintro ⟨hin | hin, hp⟩
          · exact hfe hin
          · exact hnot ⟨hin, hp⟩
        · rintro ⟨hmem, hnot⟩
          exact ⟨hmem, fun h => hnot ⟨Or.inr h.1, h.2⟩⟩

/-! ### Branch lemmas for the installer -/

/-- A failed release query surfaces an error message and yields `null`. -/
theorem downloadLanguageServer_err (s : ExtState) (u : Bool) (m : String)
    (h : s.fetchResult = Except.error m) :
    downloadLanguageServer s u =
      (none, s, [Ev.releaseRequest, Ev.errMsg (failMsgHead u ++ m)]) := by
  unfold downloadLanguageServer
  rw [h]

/-- A successful release query defers to `dlWithRelease` after the metadata
request. -/
theorem downloadLanguageServer_ok (s : ExtState) (u : Bool) (rel : Release)
    (h : s.fetchResult = Except.ok rel) :
    downloadLanguageServer s u =
      ((dlWithRelease s u rel).1, (dlWithRelease s u rel).2.1,
        Ev.releaseRequest :: (dlWithRelease s u rel).2.2) := by
  unfold downloadLanguageServer
  rw [h]

/-- The already-installed fast path of `downloadLanguageServer`. -/
theorem dlWithRelease_hit (s : ExtState) (u : Bool) (rel : Release)
    (hb : binaryPathFor s.platform rel.tag_name ∈ s.files) :
    dlWithRelease s u rel =
      (some (joinPath (binaryPathFor s.platform rel.tag_name)),
        (cleanupOldVersions (versionDirFor rel.tag_name) s).1,
        chmodEvs s.platform (binaryPathFor s.platform rel.tag_name)
          ++ (cleanupOldVersions (versionDirFor rel.tag_name) s).2) := by
  unfold dlWithRelease
  rw [if_pos hb]

/-- When the binary is absent, `downloadLanguageServer` proceeds to the
install pipeline. -/
theorem dlWithRelease_miss (s : ExtState) (u : Bool) (rel : Release)
    (hb : binaryPathFor s.platform rel.tag_name ∉ s.files) :
    dlWithRelease s u rel = dlInstall s u rel.tag_name rel.assets := by
  unfold dlWithRelease
  rw [if_neg hb]

/-- The unsupported-platform branch of the install pipeline. -/
theorem dlInstall_unsupported (s : ExtState) (u : Bool) (v : String) (assets : List Asset)
    (ha : getAssetName s.platform s.arch v = none) :
    dlInstall s u v assets =
      (none, s, [Ev.errMsg ("Unsupported platform: " ++ s.platform ++ "-" ++ s.arch)]) := by
  unfold dlInstall
  rw [ha]

/-- The missing-asset branch of the install pipeline. -/
theorem dlInstall_noAsset (s : ExtState) (u : Bool) (v : String) (assets : List Asset)
    (an : String) (ha : getAssetName s.platform s.arch v = some an)
    (hfind : assets.find? (fun a => a.name == an) = none) :
    dlInstall s u v assets =
      (none, s, [Ev.errMsg (failMsgHead u ++ "Could not find a release asset for your platform: " ++ an)]) := by
  unfold dlInstall
  rw [ha]
  simp only [hfind]

/-- An interrupted stream leaves the partial temporary archive on disk and
surfaces an error message. -/
theorem dlInstall_streamFail (s : ExtState) (u : Bool) (v : String) (assets : List Asset)
    (an : String) (a : Asset) (ha : getAssetName s.platform s.arch v = some an)
    (hfind : assets.find? (fun x => x.name == an) = some a)
    (hd : s.downloadOk = false) :
    dlInstall s u v assets =
      (none, { s with files := [an] :: s.files },
        [Ev.assetRequest a.browser_download_url, Ev.fileWrite [an],
          Ev.errMsg (failMsgHead u ++ "stream interrupted")]) := by
  unfold dlInstall
  rw [ha]
  simp only [hfind]
  rw [if_pos hd]

/-- A failed extraction leaves the temporary archive on disk and surfaces an
error message. -/
theorem dlInstall_extractFail (s : ExtState) (u : Bool) (v : String) (assets : List Asset)
    (an : String) (a : Asset) (ha : getAssetName s.platform s.arch v = some an)
    (hfind : assets.find? (fun x => x.name == an) = some a)
    (hd : s.downloadOk = true) (he : s.extractOk = false) :
    dlInstall s u v assets =
      (none, { s with files := [an] :: s.files },
        [Ev.assetRequest a.browser_download_url, Ev.fileWrite [an],
          Ev.extractTo [an] (versionDirFor v),
          Ev.errMsg (failMsgHead u ++ "extraction failed")]) := by
  unfold dlInstall
  rw [ha]
  simp only [hfind]
  rw [if_neg (by simp [hd]), if_pos he]

/-- The fully successful install path. -/
theorem dlInstall_success (s : ExtState) (u : Bool) (v : String) (assets : List Asset)
    (an : String) (a : Asset) (ha : getAssetName s.platform s.arch v = some an)
    (hfind : assets.find? (fun x => x.name == an) = some a)
    (hd : s.downloadOk = true) (he : s.extractOk = true) :
    dlInstall s u v assets =
      (some (joinPath (binaryPathFor s.platform v)),
        (cleanupOldVersions (versionDirFor v) (postInstall s v an)).1,
        [Ev.assetRequest a.browser_download_url, Ev.fileWrite [an],
          Ev.extractTo [an] (versionDirFor v), Ev.removePath [an]]
          ++ chmodEvs s.platform (binaryPathFor s.platform v)
          ++ [successMsgEv u v]
          ++ (cleanupOldVersions (versionDirFor v) (postInstall s v an)).2) := by
  unfold dlInstall
  rw [ha]
  simp only [hfind]
  rw [if_neg (by simp [hd]), if_neg (by simp [he])]
  rfl

/-! ### Shape of the platform asset selector -/

/-- Any name the selector produces has the documented template, with the
documented arch and os-triple vocabularies and the zip-iff-Windows rule. -/
theorem getAssetName_shape (p a v n : String) (h : getAssetName p a v = some n) :
    ∃ ar os ext, (ar = "x86_64" ∨ ar = "aarch64") ∧
      (os = "apple-darwin" ∨ os = "unknown-linux-gnu" ∨ os = "pc-windows-msvc") ∧
      (ext = "zip" ↔ os = "pc-windows-msvc") ∧ (ext = "zip" ∨ ext = "tar.gz") ∧
      n = assetNameStr v ar os ext := by
  by_cases hp1 : p = "darwin"
  · subst hp1
    by_cases ha1 : a = "x64"
    · subst ha1
      simp [getAssetName] at h
      subst h
      exact ⟨"x86_64", "apple-darwin", "tar.gz", Or.inl rfl, Or.inl rfl, by simp, Or.inr rfl, rfl⟩
    · by_cases ha2 : a = "arm64"
      · subst ha2
        simp [getAssetName] at h
        subst h
        exact ⟨"aarch64", "apple-darwin", "tar.gz", Or.inr rfl, Or.inl rfl, by simp, Or.inr rfl, rfl⟩
      · exfalso
        simp [getAssetName, ha1, ha2] at h
  · by_cases hp2 : p = "linux"
    · subst hp2
      by_cases ha1 : a = "x64"
      · subst ha1
        simp [getAssetName] at h
        subst h
        exact ⟨"x86_64", "unknown-linux-gnu", "tar.gz", Or.inl rfl, Or.inr (Or.inl rfl), by simp,
          Or.inr rfl, rfl⟩
      · by_cases ha2 : a = "arm64"
        · subst ha2
          simp [getAssetName] at h
          subst h
          exact ⟨"aarch64", "unknown-linux-gnu", "tar.gz", Or.inr rfl, Or.inr (Or.inl rfl), by simp,
            Or.inr rfl, rfl⟩
        · exfalso
          simp [getAssetName, ha1, ha2] at h
    · by_cases hp3 : p = "win32"
      · subst hp3
        by_cases ha1 : a = "x64"
        · subst ha1
          simp [getAssetName] at h
          subst h
          exact ⟨"x86_64", "pc-windows-msvc", "zip", Or.inl rfl, Or.inr (Or.inr rfl), by simp,
            Or.inl rfl, rfl⟩
        · by_cases ha2 : a = "arm64"
          · subst ha2
            simp [getAssetName] at h
            subst h
            exact ⟨"aarch64", "pc-windows-msvc", "zip", Or.inr rfl, Or.inr (Or.inr rfl), by simp,
              Or.inl rfl, rfl⟩
          · exfalso
            simp [getAssetName, ha1, ha2] at h
      · exfalso
        simp [getAssetName, hp1, hp2, hp3] at h

/-- Outside the enumerated platform/architecture set the selector yields
`none`. -/
theorem getAssetName_outside (p a v : String)
    (h : (p ≠ "darwin" ∧ p ≠ "linux" ∧ p ≠ "win32") ∨ (a ≠ "x64" ∧ a ≠ "arm64")) :
    getAssetName p a v = none := by
  rcases h with ⟨h1, h2, h3⟩ | ⟨h1, h2⟩
  · simp [getAssetName, h1, h2, h3]
  · by_cases hp1 : p = "darwin"
    · subst hp1
      simp [getAssetName, h1, h2]
    · by_cases hp2 : p = "linux"
      · subst hp2
        simp [getAssetName, h1, h2]
      · by_cases hp3 : p = "win32"
        · subst hp3
          simp [getAssetName, h1, h2]
        · simp [getAssetName, hp1, hp2, hp3]

/-- Claim C5: the Platform Asset Selector is a pure function of
(operating system, architecture, version): each of the six supported pairs
yields exactly the documented name
`BINARY_NAME-version-arch-os.ext` with arch in x86_64/aarch64, os-triple
among apple-darwin, unknown-linux-gnu, pc-windows-msvc, and extension
`zip` iff the Windows triple (`tar.gz` otherwise); every pair outside the
enumerated set yields `none`, never a fabricated name. -/
theorem claim_C5 :
    (∀ v, getAssetName "darwin" "x64" v = some (assetNameStr v "x86_64" "apple-darwin" "tar.gz")) ∧
    (∀ v, getAssetName "darwin" "arm64" v = some (assetNameStr v "aarch64" "apple-darwin" "tar.gz")) ∧
    (∀ v, getAssetName "linux" "x64" v = some (assetNameStr v "x86_64" "unknown-linux-gnu" "tar.gz")) ∧
    (∀ v, getAssetName "linux" "arm64" v = some (assetNameStr v "aarch64" "unknown-linux-gnu" "tar.gz")) ∧
    (∀ v, getAssetName "win32" "x64" v = some (assetNameStr v "x86_64" "pc-windows-msvc" "zip")) ∧
    (∀ v, getAssetName "win32" "arm64" v = some (assetNameStr v "aarch64" "pc-windows-msvc" "zip")) ∧
    (∀ p a v n, getAssetName p a v = some n →
      ∃ ar os ext, (ar = "x86_64" ∨ ar = "aarch64") ∧
        (os = "apple-darwin" ∨ os = "unknown-linux-gnu" ∨ os = "pc-windows-msvc") ∧
        (ext = "zip" ↔ os = "pc-windows-msvc") ∧ (ext = "zip" ∨ ext = "tar.gz") ∧
        n = assetNameStr v ar os ext) ∧
    (∀ p a v, ((p ≠ "darwin" ∧ p ≠ "linux" ∧ p ≠ "win32") ∨ (a ≠ "x64" ∧ a ≠ "arm64")) →
      getAssetName p a v = none) :=
  ⟨fun _ => rfl, fun _ => rfl, fun _ => rfl, fun _ => rfl, fun _ => rfl, fun _ => rfl,
    getAssetName_shape, getAssetName_outside⟩

/-- Claim C5 witness: concrete supported and unsupported pairs. -/
theorem claim_C5_witness :
    getAssetName "freebsd" "x64" "v1.2.0" = none ∧
    getAssetName "linux" "mips" "v1.2.0" = none ∧
    getAssetName "darwin" "arm64" "v1.2.0" =
      some (assetNameStr "v1.2.0" "aarch64" "apple-darwin" "tar.gz") :=
  ⟨claim_C5.2.2.2.2.2.2.2 "freebsd" "x64" "v1.2.0" (Or.inl ⟨by decide, by decide, by decide⟩),
    claim_C5.2.2.2.2.2.2.2 "linux" "mips" "v1.2.0" (Or.inr ⟨by decide, by decide⟩),
    claim_C5.2.1 "v1.2.0"⟩

/-- Claim C10: the file-watcher forwarding sends a delete notification
exactly for non-ignored paths with an empty extension (as the single
deleted path); deletes of paths with a non-empty extension, and any event
on a path containing an ignored segment, send nothing. -/
theorem claim_C10 (sep : Char) (env : WatchEnv) (uri : String) :
    (isIgnoredPath sep uri = false → extname sep uri = "" →
      onFileEvent sep env uri FileChangeType.Deleted = some [(uri, FileChangeType.Deleted)]) ∧
    (extname sep uri ≠ "" →
      onFileEvent sep env uri FileChangeType.Deleted = none) ∧
    (isIgnoredPath sep uri = true → ∀ ty, onFileEvent sep env uri ty = none) := by
  refine ⟨?_, ?_, ?_⟩
  · intro hig hext
    unfold onFileEvent
    rw [if_neg (by simp [hig]), if_pos rfl, if_pos hext]
  · intro hext
    unfold onFileEvent
    by_cases hig : isIgnoredPath sep uri
    · rw [if_pos hig]
    · rw [if_neg hig, if_pos rfl, if_neg hext]
  · intro hig ty
    unfold onFileEvent
    rw [if_pos hig]

/-- Claim C10 witness: a delete of an extensionless directory path is
forwarded; a delete of a `.fbs` file and an event inside `.git` are not. -/
theorem claim_C10_witness :
    onFileEvent sepSlash ⟨false, []⟩ "/ws/schemas" FileChangeType.Deleted =
      some [("/ws/schemas", FileChangeType.Deleted)] ∧
    onFileEvent sepSlash ⟨false, []⟩ "/ws/a.fbs" FileChangeType.Deleted = none ∧
    onFileEvent sepSlash ⟨true, ["x"]⟩ "/ws/.git/a" FileChangeType.Created = none :=
  ⟨(claim_C10 sepSlash ⟨false, []⟩ "/ws/schemas").1 (by decide) (by decide),
    (claim_C10 sepSlash ⟨false, []⟩ "/ws/a.fbs").2.1 (by decide),
    (claim_C10 sepSlash ⟨true, ["x"]⟩ "/ws/.git/a").2.2 (by decide) FileChangeType.Created⟩

/-! ### Trace facts about the reaper, and the temporary-archive claims -/

/-- Any event predicate that rejects removals and logs is false on the
whole reaper trace. -/
theorem cleanupLoop_evs_any_false (vd : String) (rf : List String) (l : List String)
    (files : List (List String)) (p : Ev → Bool)
    (h1 : ∀ q, p (Ev.removePath q) = false) (h2 : ∀ m, p (Ev.logged m) = false) :
    ((cleanupLoop vd rf files l).2).any p = false := by
  by_contra hc
  rw [Bool.not_eq_false, List.any_eq_true] at hc
  obtain ⟨e, he, hp⟩ := hc
  rcases cleanupLoop_evs vd rf l files e he with ⟨q, rfl⟩ | ⟨m, rfl⟩
  · rw [h1 q] at hp
    exact Bool.false_ne_true hp
  · rw [h2 m] at hp
    exact Bool.false_ne_true hp

/-- Filtering the reaper trace with a predicate that rejects removals and
logs yields nothing. -/
theorem cleanupLoop_evs_filter_nil (vd : String) (rf : List String) (l : List String)
    (files : List (List String)) (p : Ev → Bool)
    (h1 : ∀ q, p (Ev.removePath q) = false) (h2 : ∀ m, p (Ev.logged m) = false) :
    ((cleanupLoop vd rf files l).2).filter p = [] := by
  rw [List.filter_eq_nil_iff]
  intro e he
  rcases cleanupLoop_evs vd rf l files e he with ⟨q, rfl⟩ | ⟨m, rfl⟩
  · rw [h1 q]
    exact Bool.false_ne_true
  · rw [h2 m]
    exact Bool.false_ne_true

/-- Claim C1 counterexample: a state in which extraction fails; as the
claim reads, the temporary archive file would no longer exist on disk when
`downloadLanguageServer` returns, yet it is still present (and the call
returned `null`). -/
theorem claim_C1_counterexample :
    (downloadLanguageServer { baseSt with extractOk := false } false).1 = none ∧
    [linuxAssetV2] ∈ (downloadLanguageServer { baseSt with extractOk := false } false).2.1.files := by
  decide

/-- Claim C1 (amended): `downloadLanguageServer` removes the temporary
archive on the fully successful path, but when the download stream is
interrupted or extraction fails, the invocation returns `null` with the
(possibly partial) temporary archive still on disk. -/
theorem claim_C1 (s : ExtState) (u : Bool) (rel : Release) (an : String) (a : Asset)
    (hf : s.fetchResult = Except.ok rel)
    (hb : binaryPathFor s.platform rel.tag_name ∉ s.files)
    (ha : getAssetName s.platform s.arch rel.tag_name = some an)
    (hfind : rel.assets.find? (fun x => x.name == an) = some a) :
    (s.downloadOk = true → s.extractOk = true →
      [an] ∉ (downloadLanguageServer s u).2.1.files) ∧
    ((s.downloadOk = false ∨ s.extractOk = false) →
      [an] ∈ (downloadLanguageServer s u).2.1.files ∧
      (downloadLanguageServer s u).1 = none) := by
  rw [downloadLanguageServer_ok s u rel hf, dlWithRelease_miss s u rel hb]
  constructor
  · intro hd he
    rw [dlInstall_success s u rel.tag_name rel.assets an a ha hfind hd he]
    dsimp only [cleanupOldVersions]
    intro hmem
    have h2 := cleanupLoop_subset _ _ _ _ hmem
    simp only [postInstall, List.mem_filter, decide_eq_true_eq] at h2
    exact h2.2 rfl
  · intro hfail
    by_cases hd : s.downloadOk = true
    · have he : s.extractOk = false := by
        rcases hfail with h | h
        · rw [hd] at h
          exact absurd h (by simp)
        · exact h
      rw [dlInstall_extractFail s u rel.tag_name rel.assets an a ha hfind hd he]
      exact ⟨List.mem_cons_self _ _, rfl⟩
    · have hd' : s.downloadOk = false := by
        revert hd
        cases s.downloadOk <;> simp
      rw [dlInstall_streamFail s u rel.tag_name rel.assets an a ha hfind hd']
      exact ⟨List.mem_cons_self _ _, rfl⟩

/-- Claim C1 witness: the amended theorem at a concrete failed extraction
(temporary archive still on disk) and at a concrete success (temporary
archive gone). -/
theorem claim_C1_witness :
    [linuxAssetV2] ∈ (downloadLanguageServer { baseSt with extractOk := false } false).2.1.files ∧
    [linuxAssetV2] ∉ (downloadLanguageServer baseSt false).2.1.files :=
  ⟨((claim_C1 { baseSt with extractOk := false } false relV2 linuxAssetV2
      ⟨linuxAssetV2, "https://example.com/fbs.tar.gz"⟩ rfl (by decide) (by decide) (by decide)).2
      (Or.inr rfl)).1,
    (claim_C1 baseSt false relV2 linuxAssetV2
      ⟨linuxAssetV2, "https://example.com/fbs.tar.gz"⟩ rfl (by decide) (by decide) (by decide)).1
      rfl rfl⟩

/-! ### The already-installed fast path -/

/-- Claim C3 counterexample: the binary for the latest version is already
on disk, yet — contrary to the claim of zero network calls — invoking
`downloadLanguageServer` performs a network request (the release-metadata
query needed to learn the latest version). -/
theorem claim_C3_counterexample :
    ((downloadLanguageServer { baseSt with files := [binaryPathFor "linux" "v2"] } false).2.2).any
      isNetworkEv = true := by
  decide

/-- Claim C3 (amended): when the binary for the latest version already
exists, `downloadLanguageServer` performs exactly one network request (the
release-metadata query) and no asset download, writes and extracts
nothing (the binary file is left in place untouched), re-asserts the
executable bit on non-Windows platforms (and does not chmod on Windows),
and returns that binary path. -/
theorem claim_C3 (s : ExtState) (rel : Release)
    (hf : s.fetchResult = Except.ok rel)
    (hb : binaryPathFor s.platform rel.tag_name ∈ s.files) :
    (downloadLanguageServer s false).1 = some (joinPath (binaryPathFor s.platform rel.tag_name)) ∧
    ((downloadLanguageServer s false).2.2).filter isNetworkEv = [Ev.releaseRequest] ∧
    ((downloadLanguageServer s false).2.2).any isWriteEv = false ∧
    binaryPathFor s.platform rel.tag_name ∈ (downloadLanguageServer s false).2.1.files ∧
    (s.platform ≠ "win32" →
      Ev.chmodX (binaryPathFor s.platform rel.tag_name) ∈ (downloadLanguageServer s false).2.2) ∧
    (s.platform = "win32" →
      ((downloadLanguageServer s false).2.2).any isChmodEv = false) := by
  rw [downloadLanguageServer_ok s false rel hf, dlWithRelease_hit s false rel hb]
  dsimp only [cleanupOldVersions]
  refine ⟨rfl, ?_, ?_, ?_, ?_, ?_⟩
  · rw [List.filter_cons]
    simp only [isNetworkEv, if_pos]
    rw [List.filter_append]
    rw [cleanupLoop_evs_filter_nil _ _ _ _ isNetworkEv (fun _ => rfl) (fun _ => rfl)]
    by_cases hw : s.platform = "win32"
    · simp [chmodEvs, hw]
    · simp [chmodEvs, hw, isNetworkEv]
  · rw [List.any_cons, List.any_append]
    rw [cleanupLoop_evs_any_false _ _ _ _ isWriteEv (fun _ => rfl) (fun _ => rfl)]
    by_cases hw : s.platform = "win32"
    · simp [chmodEvs, hw, isWriteEv]
    · simp [chmodEvs, hw, isWriteEv]
  · exact cleanupLoop_keep _ _ _ _ _ hb rfl
  · intro hw
    simp [chmodEvs, hw]
  · intro hw
    rw [List.any_cons, List.any_append]
    rw [cleanupLoop_evs_any_false _ _ _ _ isChmodEv (fun _ => rfl) (fun _ => rfl)]
    simp [chmodEvs, hw, isChmodEv]

/-- Claim C3 witness: the amended theorem at a concrete state with the
binary already installed. -/
theorem claim_C3_witness :
    (downloadLanguageServer { baseSt with files := [binaryPathFor "linux" "v2"] } false).1 =
      some (joinPath (binaryPathFor "linux" "v2")) ∧
    ((downloadLanguageServer { baseSt with files := [binaryPathFor "linux" "v2"] } false).2.2).filter
      isNetworkEv = [Ev.releaseRequest] :=
  ⟨(claim_C3 { baseSt with files := [binaryPathFor "linux" "v2"] } relV2 rfl
      (List.mem_cons_self _ _)).1,
    (claim_C3 { baseSt with files := [binaryPathFor "linux" "v2"] } relV2 rfl
      (List.mem_cons_self _ _)).2.1⟩

/-- Claim C9: in `downloadLanguageServer` the already-installed check runs
before the platform-support check: when the binary for the latest version
exists, the call succeeds with that path and shows no error message even
on an unsupported platform; the unsupported-platform error is only
produced when that binary is absent. -/
theorem claim_C9 (s : ExtState) (rel : Release)
    (hf : s.fetchResult = Except.ok rel) :
    (binaryPathFor s.platform rel.tag_name ∈ s.files →
      (downloadLanguageServer s false).1 =
        some (joinPath (binaryPathFor s.platform rel.tag_name)) ∧
      ((downloadLanguageServer s false).2.2).any isErrMsgEv = false) ∧
    (binaryPathFor s.platform rel.tag_name ∉ s.files →
      getAssetName s.platform s.arch rel.tag_name = none →
      (downloadLanguageServer s false).1 = none ∧
      Ev.errMsg ("Unsupported platform: " ++ s.platform ++ "-" ++ s.arch) ∈
        (downloadLanguageServer s false).2.2) := by
  constructor
  · intro hb
    rw [downloadLanguageServer_ok s false rel hf, dlWithRelease_hit s false rel hb]
    dsimp only [cleanupOldVersions]
    refine ⟨rfl, ?_⟩
    rw [List.any_cons, List.any_append]
    rw [cleanupLoop_evs_any_false _ _ _ _ isErrMsgEv (fun _ => rfl) (fun _ => rfl)]
    by_cases hw : s.platform = "win32"
    · simp [chmodEvs, hw, isErrMsgEv]
    · simp [chmodEvs, hw, isErrMsgEv]
  · intro hb ha
    rw [downloadLanguageServer_ok s false rel hf, dlWithRelease_miss s false rel hb,
      dlInstall_unsupported s false rel.tag_name rel.assets ha]
    exact ⟨rfl, by simp⟩

/-- Claim C9 witness: on an unsupported platform the installed binary is
still returned, and with no binary present the unsupported-platform error
is shown. -/
theorem claim_C9_witness :
    (downloadLanguageServer
      { baseSt with platform := "sunos", files := [binaryPathFor "sunos" "v2"] } false).1 =
      some (joinPath (binaryPathFor "sunos" "v2")) ∧
    Ev.errMsg ("Unsupported platform: " ++ "sunos" ++ "-" ++ "x64") ∈
      (downloadLanguageServer { baseSt with platform := "sunos" } false).2.2 :=
  ⟨((claim_C9 { baseSt with platform := "sunos", files := [binaryPathFor "sunos" "v2"] } relV2
      rfl).1 (List.mem_cons_self _ _)).1,
    ((claim_C9 { baseSt with platform := "sunos" } relV2 rfl).2 (by decide) (by decide)).2⟩

/-! ### The reaper invariant after a successful install -/

/-- Claim C4 counterexample: two stale version directories and one failing
deletion; the install succeeds, but — contrary to the claim — the failure
aborts the loop, so the second stale directory survives and more than one
version-prefixed directory remains. -/
theorem claim_C4_counterexample :
    (downloadLanguageServer
      { baseSt with
        files := [["flatbuffers-language-server-v0", "flatbuffers-language-server"],
          ["flatbuffers-language-server-v1", "flatbuffers-language-server"]],
        removeFails := ["flatbuffers-language-server-v0"] } false).1 =
      some (joinPath (binaryPathFor "linux" "v2")) ∧
    ["flatbuffers-language-server-v1", "flatbuffers-language-server"] ∈
      (downloadLanguageServer
        { baseSt with
          files := [["flatbuffers-language-server-v0", "flatbuffers-language-server"],
            ["flatbuffers-language-server-v1", "flatbuffers-language-server"]],
          removeFails := ["flatbuffers-language-server-v0"] } false).2.1.files := by
  decide

/-- Claim C4 (amended): after a successful install of version V, when no
deletion fails, the only version-prefixed storage entry that remains is
the directory encoding V (and it is present), for every prior state; a
deletion failure never fails the acquisition (the installed path is
returned for every set of failing removals), but it ends the cleanup loop,
so stale directories after the failing one may survive. -/
theorem claim_C4 (s : ExtState) (u : Bool) (rel : Release) (an : String) (a : Asset)
    (hf : s.fetchResult = Except.ok rel)
    (hb : binaryPathFor s.platform rel.tag_name ∉ s.files)
    (ha : getAssetName s.platform s.arch rel.tag_name = some an)
    (hfind : rel.assets.find? (fun x => x.name == an) = some a)
    (hd : s.downloadOk = true) (he : s.extractOk = true) :
    (s.removeFails = [] →
      (∀ e ∈ readdirStorage (downloadLanguageServer s u).2.1.files,
        strStartsWith e versionPrefixVal = true → e = versionDirFor rel.tag_name) ∧
      versionDirFor rel.tag_name ∈ readdirStorage (downloadLanguageServer s u).2.1.files) ∧
    (∀ rf, (downloadLanguageServer { s with removeFails := rf } u).1 =
      some (joinPath (binaryPathFor s.platform rel.tag_name))) := by
  constructor
  · intro hrf
    rw [downloadLanguageServer_ok s u rel hf, dlWithRelease_miss s u rel hb,
      dlInstall_success s u rel.tag_name rel.assets an a ha hfind hd he]
    dsimp only [cleanupOldVersions, postInstall]
    rw [hrf]
    constructor
    · intro e he2 hpref
      rw [mem_readdirStorage] at he2
      obtain ⟨f, hfR, hent⟩ := he2
      rw [cleanupLoop_mem_noFail] at hfR
      by_contra hne
      refine hfR.2 ⟨?_, ?_, ?_⟩
      · rw [mem_readdirStorage]
        exact ⟨f, hfR.1, rfl⟩
      · rw [hent]
        exact hpref
      · rw [hent]
        exact hne
    · rw [mem_readdirStorage]
      refine ⟨binaryPathFor s.platform rel.tag_name, ?_, rfl⟩
      refine cleanupLoop_keep _ _ _ _ _ ?_ rfl
      rw [List.mem_filter]
      refine ⟨List.mem_cons_self _ _, ?_⟩
      rw [decide_eq_true_eq]
      simp [binaryPathFor]
  · intro rf
    rw [downloadLanguageServer_ok { s with removeFails := rf } u rel hf,
      dlWithRelease_miss { s with removeFails := rf } u rel hb,
      dlInstall_success { s with removeFails := rf } u rel.tag_name rel.assets an a ha hfind hd he]

/-- Claim C4 witness: the amended theorem at a concrete state with one
stale directory and no failing removals: only the new version directory
remains among the prefixed entries and the acquisition succeeded. -/
theorem claim_C4_witness :
    versionDirFor "v2" ∈ readdirStorage (downloadLanguageServer
      { baseSt with files := [["flatbuffers-language-server-v0", "flatbuffers-language-server"]] }
      false).2.1.files ∧
    (downloadLanguageServer
      { baseSt with
        files := [["flatbuffers-language-server-v0", "flatbuffers-language-server"]],
        removeFails := ["flatbuffers-language-server-v0"] } false).1 =
      some (joinPath (binaryPathFor "linux" "v2")) :=
  ⟨((claim_C4
      { baseSt with files := [["flatbuffers-language-server-v0", "flatbuffers-language-server"]] }
      false relV2 linuxAssetV2 ⟨linuxAssetV2, "https://example.com/fbs.tar.gz"⟩
      rfl (by decide) (by decide) (by decide) rfl rfl).1 rfl).2,
    (claim_C4
      { baseSt with files := [["flatbuffers-language-server-v0", "flatbuffers-language-server"]] }
      false relV2 linuxAssetV2 ⟨linuxAssetV2, "https://example.com/fbs.tar.gz"⟩
      rfl (by decide) (by decide) (by decide) rfl rfl).2
      ["flatbuffers-language-server-v0"]⟩

/-! ### Branch lemmas for the background update check -/

/-- A failing release query in the background check is logged only. -/
theorem bgCheck_err (s : ExtState) (cached : String) (auto : Bool) (m : String)
    (h : s.fetchResult = Except.error m) :
    checkForUpdatesInBackground s cached auto =
      (s, [Ev.releaseRequest,
        Ev.logged ("Failed to check for updates in the background: " ++ m)]) := by
  unfold checkForUpdatesInBackground
  rw [h]

/-- An up-to-date cache ends the background check quietly. -/
theorem bgCheck_upToDate (s : ExtState) (cached : String) (auto : Bool) (rel : Release)
    (h : s.fetchResult = Except.ok rel) (he : rel.tag_name = cached) :
    checkForUpdatesInBackground s cached auto =
      (s, [Ev.releaseRequest, Ev.logged "Language server is up to date."]) := by
  simp only [checkForUpdatesInBackground, h]
  rw [if_neg (fun hc => hc he)]

/-- With auto-download enabled, a new version is handed to the installer. -/
theorem bgCheck_auto (s : ExtState) (cached : String) (rel : Release)
    (h : s.fetchResult = Except.ok rel) (hne : rel.tag_name ≠ cached) :
    checkForUpdatesInBackground s cached true =
      ((downloadLanguageServer s true).2.1,
        Ev.releaseRequest :: (downloadLanguageServer s true).2.2) := by
  simp only [checkForUpdatesInBackground, h]
  rw [if_pos hne, if_pos trivial]

/-- A new version equal to the persisted skipped version is logged, with no
prompt. -/
theorem bgCheck_skipped (s : ExtState) (cached : String) (rel : Release)
    (h : s.fetchResult = Except.ok rel) (hne : rel.tag_name ≠ cached)
    (hskip : rel.tag_name = s.latestSkippedVersion.getD "") :
    checkForUpdatesInBackground s cached false =
      (s, [Ev.releaseRequest,
        Ev.logged ("Latest version was skipped (" ++ rel.tag_name ++ ").")]) := by
  simp only [checkForUpdatesInBackground, h]
  rw [if_pos hne, if_neg (by simp), if_pos hskip]

/-- Skipping at the update prompt persists the offered version. -/
theorem bgCheck_promptSkip (s : ExtState) (cached : String) (rel : Release)
    (h : s.fetchResult = Except.ok rel) (hne : rel.tag_name ≠ cached)
    (hnskip : rel.tag_name ≠ s.latestSkippedVersion.getD "")
    (hch : s.updateChoice = UpdateChoice.skipThis) :
    checkForUpdatesInBackground s cached false =
      ({ s with latestSkippedVersion := some rel.tag_name },
        [Ev.releaseRequest, Ev.updatePrompt,
          Ev.logged ("Setting skipped version to " ++ rel.tag_name ++ ".")]) := by
  simp only [checkForUpdatesInBackground, h]
  rw [if_pos hne, if_neg (by simp), if_neg hnskip]
  simp only [hch]

/-- Dismissing the update prompt takes no further action. -/
theorem bgCheck_promptDismiss (s : ExtState) (cached : String) (rel : Release)
    (h : s.fetchResult = Except.ok rel) (hne : rel.tag_name ≠ cached)
    (hnskip : rel.tag_name ≠ s.latestSkippedVersion.getD "")
    (hch : s.updateChoice = UpdateChoice.dismiss) :
    checkForUpdatesInBackground s cached false =
      (s, [Ev.releaseRequest, Ev.updatePrompt]) := by
  simp only [checkForUpdatesInBackground, h]
  rw [if_pos hne, if_neg (by simp), if_neg hnskip]
  simp only [hch]

/-- Accepting the update prompt defers to the installer. -/
theorem bgCheck_promptDownload (s : ExtState) (cached : String) (rel : Release)
    (h : s.fetchResult = Except.ok rel) (hne : rel.tag_name ≠ cached)
    (hnskip : rel.tag_name ≠ s.latestSkippedVersion.getD "")
    (hch : s.updateChoice = UpdateChoice.download) :
    checkForUpdatesInBackground s cached false =
      ((downloadLanguageServer s true).2.1,
        Ev.releaseRequest :: Ev.updatePrompt :: (downloadLanguageServer s true).2.2) := by
  simp only [checkForUpdatesInBackground, h]
  rw [if_pos hne, if_neg (by simp), if_neg hnskip]
  simp only [hch]

/-- Accepting with auto-update enablement persists the preference and then
defers to the installer. -/
theorem bgCheck_promptEnable (s : ExtState) (cached : String) (rel : Release)
    (h : s.fetchResult = Except.ok rel) (hne : rel.tag_name ≠ cached)
    (hnskip : rel.tag_name ≠ s.latestSkippedVersion.getD "")
    (hch : s.updateChoice = UpdateChoice.downloadAndEnable) :
    checkForUpdatesInBackground s cached false =
      ((downloadLanguageServer (enableAutoUpdates s).1 true).2.1,
        Ev.releaseRequest :: Ev.updatePrompt ::
          ((enableAutoUpdates s).2 ++
            (downloadLanguageServer (enableAutoUpdates s).1 true).2.2)) := by
  simp only [checkForUpdatesInBackground, h]
  rw [if_pos hne, if_neg (by simp), if_neg hnskip]
  simp only [hch]

/-! ### Error surfacing and skip behaviour of the background check -/

/-- Claim C2 counterexample: a background check with auto-download enabled
whose triggered install fails (no matching release asset); contrary to the
claim, an error message is surfaced to the user (by the installer's own
handler). -/
theorem claim_C2_counterexample :
    ((checkForUpdatesInBackground
      { baseSt with fetchResult := Except.ok ⟨"v2", []⟩, latestKnownVersion := some "v1" }
      "v1" true).2).any isErrMsgEv = true := by
  decide

/-- Claim C2 (amended): errors raised in the background check's own flow
(the release query) are caught and logged only, and every outcome that
does not trigger the install step (up to date, version skipped, prompt
skipped or dismissed) surfaces no error message; only the triggered
install step can surface one, through its own handler. -/
theorem claim_C2 (s : ExtState) (cached : String) (auto : Bool) :
    (∀ m, s.fetchResult = Except.error m →
      ((checkForUpdatesInBackground s cached auto).2).any isErrMsgEv = false) ∧
    (∀ rel, s.fetchResult = Except.ok rel → rel.tag_name = cached →
      ((checkForUpdatesInBackground s cached auto).2).any isErrMsgEv = false) ∧
    (∀ rel, s.fetchResult = Except.ok rel → rel.tag_name ≠ cached →
      rel.tag_name = s.latestSkippedVersion.getD "" →
      ((checkForUpdatesInBackground s cached false).2).any isErrMsgEv = false) ∧
    (∀ rel, s.fetchResult = Except.ok rel → rel.tag_name ≠ cached →
      rel.tag_name ≠ s.latestSkippedVersion.getD "" →
      (s.updateChoice = UpdateChoice.skipThis ∨ s.updateChoice = UpdateChoice.dismiss) →
      ((checkForUpdatesInBackground s cached false).2).any isErrMsgEv = false) := by
  refine ⟨?_, ?_, ?_, ?_⟩
  · intro m h
    rw [bgCheck_err s cached auto m h]
    rfl
  · intro rel h he
    rw [bgCheck_upToDate s cached auto rel h he]
    rfl
  · intro rel h hne hskip
    rw [bgCheck_skipped s cached rel h hne hskip]
    rfl
  · intro rel h hne hnskip hch
    rcases hch with hch | hch
    · rw [bgCheck_promptSkip s cached rel h hne hnskip hch]
      rfl
    · rw [bgCheck_promptDismiss s cached rel h hne hnskip hch]
      rfl

/-- Claim C2 witness: a failing release query in the background check is
logged without any error message. -/
theorem claim_C2_witness :
    ((checkForUpdatesInBackground { baseSt with fetchResult := Except.error "ETIMEDOUT" } "v1"
      false).2).any isErrMsgEv = false :=
  (claim_C2 { baseSt with fetchResult := Except.error "ETIMEDOUT" } "v1" false).1 "ETIMEDOUT" rfl

/-- Claim C7: with auto-download disabled, choosing skip persists the
offered version; a later check whose remote latest equals the skipped
version (or the cached version) shows no prompt; a check whose remote
latest differs from both the cached and the skipped version does prompt;
and with auto-download enabled a differing version is handed straight to
the installer. -/
theorem claim_C7 (s : ExtState) (cached : String) (rel : Release)
    (hf : s.fetchResult = Except.ok rel) :
    (rel.tag_name ≠ cached → rel.tag_name ≠ s.latestSkippedVersion.getD "" →
      s.updateChoice = UpdateChoice.skipThis →
      (checkForUpdatesInBackground s cached false).1.latestSkippedVersion =
        some rel.tag_name) ∧
    (rel.tag_name ≠ cached → rel.tag_name = s.latestSkippedVersion.getD "" →
      (checkForUpdatesInBackground s cached false).2 =
        [Ev.releaseRequest,
          Ev.logged ("Latest version was skipped (" ++ rel.tag_name ++ ").")]) ∧
    (rel.tag_name = cached → ∀ auto,
      Ev.updatePrompt ∉ (checkForUpdatesInBackground s cached auto).2) ∧
    (rel.tag_name ≠ cached → rel.tag_name ≠ s.latestSkippedVersion.getD "" →
      Ev.updatePrompt ∈ (checkForUpdatesInBackground s cached false).2) ∧
    (rel.tag_name ≠ cached →
      checkForUpdatesInBackground s cached true =
        ((downloadLanguageServer s true).2.1,
          Ev.releaseRequest :: (downloadLanguageServer s true).2.2)) := by
  refine ⟨?_, ?_, ?_, ?_, ?_⟩
  · intro hne hnskip hch
    rw [bgCheck_promptSkip s cached rel hf hne hnskip hch]
  · intro hne hskip
    rw [bgCheck_skipped s cached rel hf hne hskip]
  · intro he auto
    rw [bgCheck_upToDate s cached auto rel hf he]
    simp
  · intro hne hnskip
    rcases hch : s.updateChoice with _ | _ | _ | _
    · rw [bgCheck_promptDownload s cached rel hf hne hnskip hch]
      simp
    · rw [bgCheck_promptEnable s cached rel hf hne hnskip hch]
      simp
    · rw [bgCheck_promptSkip s cached rel hf hne hnskip hch]
      simp
    · rw [bgCheck_promptDismiss s cached rel hf hne hnskip hch]
      simp
  · intro hne
    exact bgCheck_auto s cached rel hf hne

/-- Claim C7 witness: skipping persists the version, and a later check
against the skipped version is silent. -/
theorem claim_C7_witness :
    (checkForUpdatesInBackground
      { baseSt with updateChoice := UpdateChoice.skipThis } "v1"
      false).1.latestSkippedVersion = some "v2" ∧
    (checkForUpdatesInBackground
      { baseSt with latestSkippedVersion := some "v2" } "v1" false).2 =
      [Ev.releaseRequest, Ev.logged ("Latest version was skipped (" ++ "v2" ++ ").")] :=
  ⟨(claim_C7 { baseSt with updateChoice := UpdateChoice.skipThis } "v1" relV2 rfl).1
      (by decide) (by decide) rfl,
    (claim_C7 { baseSt with latestSkippedVersion := some "v2" } "v1" relV2 rfl).2.1
      (by decide) rfl⟩

/-! ### Branch lemmas for the acquisition orchestrator -/

/-- A truthy configured path is returned as-is, with no effects. -/
theorem glsp_config (s : ExtState) (p : String) (h : truthyStr s.configPath = some p) :
    getLanguageServerPath s = (some p, s, []) := by
  unfold getLanguageServerPath
  rw [h]

/-- A search-path hit is returned as-is, with no effects. -/
theorem glsp_which (s : ExtState) (q : String) (hc : truthyStr s.configPath = none)
    (hw : s.whichResult = some q) :
    getLanguageServerPath s = (some q, s, []) := by
  unfold getLanguageServerPath
  rw [hc, hw]

/-- A cached version whose binary is on disk is returned, and the
background check is started. -/
theorem glsp_cacheHit (s : ExtState) (cv : String) (hc : truthyStr s.configPath = none)
    (hw : s.whichResult = none) (hv : s.latestKnownVersion = some cv)
    (hb : binaryPathFor s.platform cv ∈ s.files) :
    getLanguageServerPath s =
      (some (joinPath (binaryPathFor s.platform cv)), s, [Ev.bgCheckStarted]) := by
  unfold getLanguageServerPath
  rw [hc, hw]
  simp only [hv]
  rw [if_pos hb]

/-- On a cache miss with the auto-download preference enabled, the
orchestrator is exactly the installer. -/
theorem glsp_auto (s : ExtState) (hc : truthyStr s.configPath = none)
    (hw : s.whichResult = none) (hm : cacheMiss s)
    (ha : s.configAutoDownload.getD false = true) :
    getLanguageServerPath s = downloadLanguageServer s false := by
  unfold getLanguageServerPath
  rw [hc, hw]
  rcases hv : s.latestKnownVersion with _ | cv
  · simp only [hv]
    rw [ha, if_pos rfl]
  · simp only [hv]
    rw [if_neg (hm cv hv), ha, if_pos rfl]

/-- On a cache miss with auto-download disabled, cancelling the prompt
yields `null` and no message from this function. -/
theorem glsp_cancel (s : ExtState) (hc : truthyStr s.configPath = none)
    (hw : s.whichResult = none) (hm : cacheMiss s)
    (ha : s.configAutoDownload.getD false = false)
    (hch : s.downloadChoice = DownloadChoice.cancel) :
    getLanguageServerPath s = (none, s, [Ev.downloadPrompt]) := by
  unfold getLanguageServerPath
  rw [hc, hw]
  rcases hv : s.latestKnownVersion with _ | cv
  · simp only [hv]
    rw [ha, if_neg (by simp)]
    simp only [hch]
  · simp only [hv]
    rw [if_neg (hm cv hv), ha, if_neg (by simp)]
    simp only [hch]

/-- On a cache miss with auto-download disabled, download-once runs the
installer after the prompt. -/
theorem glsp_once (s : ExtState) (hc : truthyStr s.configPath = none)
    (hw : s.whichResult = none) (hm : cacheMiss s)
    (ha : s.configAutoDownload.getD false = false)
    (hch : s.downloadChoice = DownloadChoice.downloadOnce) :
    getLanguageServerPath s =
      ((downloadLanguageServer s false).1, (downloadLanguageServer s false).2.1,
        Ev.downloadPrompt :: (downloadLanguageServer s false).2.2) := by
  unfold getLanguageServerPath
  rw [hc, hw]
  rcases hv : s.latestKnownVersion with _ | cv
  · simp only [hv]
    rw [ha, if_neg (by simp)]
    simp only [hch]
  · simp only [hv]
    rw [if_neg (hm cv hv), ha, if_neg (by simp)]
    simp only [hch]

/-- On a cache miss with auto-download disabled, accept-and-enable first
persists the preference and then runs the installer. -/
theorem glsp_enable (s : ExtState) (hc : truthyStr s.configPath = none)
    (hw : s.whichResult = none) (hm : cacheMiss s)
    (ha : s.configAutoDownload.getD false = false)
    (hch : s.downloadChoice = DownloadChoice.downloadAndEnable) :
    getLanguageServerPath s =
      ((downloadLanguageServer (enableAutoUpdates s).1 false).1,
        (downloadLanguageServer (enableAutoUpdates s).1 false).2.1,
        Ev.downloadPrompt ::
          ((enableAutoUpdates s).2 ++
            (downloadLanguageServer (enableAutoUpdates s).1 false).2.2)) := by
  unfold getLanguageServerPath
  rw [hc, hw]
  rcases hv : s.latestKnownVersion with _ | cv
  · simp only [hv]
    rw [ha, if_neg (by simp)]
    simp only [hch]
  · simp only [hv]
    rw [if_neg (hm cv hv), ha, if_neg (by simp)]
    simp only [hch]

/-! ### The orchestrator's priority order and its default preference -/

/-- Claim C6: `getLanguageServerPath` evaluates its alternatives in fixed
priority order with first match winning: a set (truthy) configured path is
returned immediately with no effects and no validation (the result does
not depend on any other part of the state); else a search-path hit is
returned; else a cached version whose binary is present is returned and
the non-blocking background check is started; else auto-download runs the
installer when the preference is enabled, otherwise the prompt is shown
and cancelling yields `null` with no message from this layer. -/
theorem claim_C6 (s : ExtState) :
    (∀ p, s.configPath = some p → p ≠ "" → getLanguageServerPath s = (some p, s, [])) ∧
    (∀ q, truthyStr s.configPath = none → s.whichResult = some q →
      getLanguageServerPath s = (some q, s, [])) ∧
    (∀ cv, truthyStr s.configPath = none → s.whichResult = none →
      s.latestKnownVersion = some cv → binaryPathFor s.platform cv ∈ s.files →
      getLanguageServerPath s =
        (some (joinPath (binaryPathFor s.platform cv)), s, [Ev.bgCheckStarted])) ∧
    (truthyStr s.configPath = none → s.whichResult = none → cacheMiss s →
      (s.configAutoDownload.getD false = true →
        getLanguageServerPath s = downloadLanguageServer s false) ∧
      (s.configAutoDownload.getD false = false →
        s.downloadChoice = DownloadChoice.cancel →
        getLanguageServerPath s = (none, s, [Ev.downloadPrompt]))) := by
  refine ⟨?_, ?_, ?_, ?_⟩
  · intro p hp hne
    refine glsp_config s p ?_
    rw [hp]
    simp [truthyStr, hne]
  · intro q hc hw
    exact glsp_which s q hc hw
  · intro cv hc hw hv hb
    exact glsp_cacheHit s cv hc hw hv hb
  · intro hc hw hm
    exact ⟨fun ha => glsp_auto s hc hw hm ha,
      fun ha hch => glsp_cancel s hc hw hm ha hch⟩

/-- Claim C6 witness: a configured path wins outright; with nothing
configured and a cancelled prompt the orchestrator yields `null` with only
the prompt in its trace. -/
theorem claim_C6_witness :
    getLanguageServerPath { baseSt with configPath := some "/opt/fbs/ls" } =
      (some "/opt/fbs/ls", { baseSt with configPath := some "/opt/fbs/ls" }, []) ∧
    getLanguageServerPath baseSt = (none, baseSt, [Ev.downloadPrompt]) :=
  ⟨(claim_C6 { baseSt with configPath := some "/opt/fbs/ls" }).1 "/opt/fbs/ls" rfl
      (by decide),
    ((claim_C6 baseSt).2.2.2 rfl rfl (fun _ h => Option.noConfusion h)).2 rfl rfl⟩

/-- Claim C8: when the auto-download setting has never been set, the
orchestrator reads it as `false`: on a cache miss it shows the download
prompt (for every prompt answer) instead of silently downloading. -/
theorem claim_C8 (s : ExtState) (hc : truthyStr s.configPath = none)
    (hw : s.whichResult = none) (ha : s.configAutoDownload = none)
    (hm : cacheMiss s) :
    Ev.downloadPrompt ∈ (getLanguageServerPath s).2.2 := by
  have ha2 : s.configAutoDownload.getD false = false := by
    rw [ha]
    rfl
  rcases hch : s.downloadChoice with _ | _ | _
  · rw [glsp_enable s hc hw hm ha2 hch]
    simp
  · rw [glsp_once s hc hw hm ha2 hch]
    simp
  · rw [glsp_cancel s hc hw hm ha2 hch]
    simp

/-- Claim C8 witness: the unset-preference state shows the prompt. -/
theorem claim_C8_witness :
    Ev.downloadPrompt ∈ (getLanguageServerPath baseSt).2.2 :=
  claim_C8 baseSt rfl rfl rfl (fun _ h => Option.noConfusion h)
